import Mathlib

/-!
Package concurrentrand.

A verification development for the Go package `concurrentrand`
(`concurrentrand.go`).  The package wraps `math/rand` behind a buffered
channel: `NewSource` makes a channel of capacity `BufferSize`, starts one
goroutine (the filler) that runs `for { ch <- src.Int63() }`, and hands out a
`source` whose `Int63` is `<-cs.ch` and whose `Seed` panics.

The program is goroutines talking over a channel, so it is embedded as a
transition system: a state, the atomic actions of the filler and of the
consumers, and an executable `step` function (`none` = the action cannot
happen in that state, i.e. the goroutine that wants to perform it is blocked).
-/

namespace concurrentrand

/-! ## What the package imports -/

/-- Collaborators of the package that live outside the repository: the
generator of `math/rand` (`rand.NewSource`, `Source.Int63`), the bound that
the runtime puts on the length of a channel of `int64`, and the memory the
allocator has to give.  They are parameters of the whole development. -/
structure Runtime (σ : Type) where
  /-- The generator state `rand.NewSource(seed)` starts from. -/
  randNewSource : Int → σ
  /-- One call of `src.Int63()`: the value returned and the advanced state. -/
  randInt63 : σ → Int × σ
  /-- Largest length that passes the range check of `make(chan int64, n)`. -/
  maxChanLen : Nat
  /-- Whether the allocator can supply the memory of a channel of `n` values
  of type `int64` when `make` asks for it. -/
  allocates : Nat → Bool

/-- The state of a `rand.Source` after `k` calls of `Int63`. -/
def advance {σ : Type} (R : Runtime σ) : σ → Nat → σ
  | g, 0 => g
  | g, k + 1 => advance R (R.randInt63 g).2 k

/-- The values returned by `k` successive calls of `Int63` on a `rand.Source`
in state `g`. -/
def drawFrom {σ : Type} (R : Runtime σ) : σ → Nat → List Int
  | _, 0 => []
  | g, k + 1 => (R.randInt63 g).1 :: drawFrom R (R.randInt63 g).2 k

/-- The reference sequence of the tests: `src := rand.NewSource(seed)` followed
by `k` calls `src.Int63()`. -/
def reference {σ : Type} (R : Runtime σ) (seed : Int) (k : Nat) : List Int :=
  drawFrom R (R.randNewSource seed) k

/-! ## The channel -/

/-- A `chan int64`: its capacity, fixed by `make`, and the values buffered in
it, oldest first. -/
structure Chan where
  cap : Nat
  buf : List Int
deriving DecidableEq, Repr

/-- The two ways a call can end without returning: a run-time panic, which
unwinds the calling goroutine, and a fatal error of the runtime, which ends the
program and is no panic. -/
inductive Failure where
  | panic (msg : String)
  | fatal (msg : String)
deriving DecidableEq, Repr

/-- The builtin `make(chan int64, size)`.  The range check comes first: a
run-time panic when `size` is negative or larger than the runtime allows.  A
size that passes it is then allocated: the fatal error `out of memory` when the
allocator cannot supply the channel, an empty channel of that capacity
otherwise (capacity 0 is an unbuffered channel). -/
def makechan (maxChanLen : Nat) (allocates : Nat → Bool) (size : Int) :
    Except Failure Chan :=
  if size < 0 ∨ (maxChanLen : Int) < size then
    .error (.panic "makechan: size out of range")
  else if allocates size.toNat then
    .ok { cap := size.toNat, buf := [] }
  else
    .error (.fatal "runtime: out of memory")

/-! ## The source and its goroutines -/

/-- Initial value of the package variable: `var BufferSize = 500`. -/
def BufferSize : Int := 500

/-- Everything a constructed source consists of.

* `BufferSize`: current value of the package variable;
* `ch`: the channel made by `NewSource` (`source.ch` is its receive end);
* `src`: the `rand.Source` captured by the filler goroutine;
* `held`: where the filler is in `ch <- src.Int63()`: `none` when it is about
  to call `src.Int63()`, `some v` when the call has returned `v` and the send
  of `v` has not completed yet;
* `pending`: the consumers that are inside a call of `Int63`;
* `results`: history of the completed `Int63` calls, oldest first, each with
  the consumer that made it and the value it returned;
* `generated`, `enqueued`: history counters, the number of completed
  `src.Int63()` calls of the filler and of completed sends on `ch`. -/
structure State (σ : Type) where
  BufferSize : Int
  ch : Chan
  src : σ
  held : Option Int
  pending : List Nat
  results : List (Nat × Int)
  generated : Nat
  enqueued : Nat
deriving DecidableEq, Repr

/-- Go `NewSource(seed)` when the package variable holds `bufferSize`:
`ch := make(chan int64, BufferSize)`, then `rand.NewSource(seed)` is evaluated
and the filler goroutine is started on it.  The result is the state right
after `return &source{ch}`, or the way `make` failed. -/
def NewSource {σ : Type} (R : Runtime σ) (bufferSize : Int) (seed : Int) :
    Except Failure (State σ) :=
  match makechan R.maxChanLen R.allocates bufferSize with
  | .error e => .error e
  | .ok ch =>
    .ok { BufferSize := bufferSize, ch := ch, src := R.randNewSource seed,
          held := none, pending := [], results := [],
          generated := 0, enqueued := 0 }

/-- Go `(cs *source).Seed(seed)`: `panic("changing the seed is not supported")`.
The outcome of the call together with the state it leaves behind. -/
def source.Seed {σ : Type} (s : State σ) (_seed : Int) :
    Except String Unit × State σ :=
  (.error "changing the seed is not supported", s)

/-- The atomic actions of the system. -/
inductive Action where
  /-- Some goroutine executes `BufferSize = n`. -/
  | assign (n : Int)
  /-- The filler evaluates `src.Int63()`, the operand of its send. -/
  | gen
  /-- The filler's `ch <- v` puts `v` into the buffer. -/
  | send
  /-- Consumer `i` calls `Int63` and reaches `<-cs.ch`. -/
  | call (i : Nat)
  /-- Consumer `i`'s `<-cs.ch` takes the oldest buffered value and `Int63`
  returns it. -/
  | recv (i : Nat)
  /-- On an unbuffered channel: the filler's `ch <- v` and consumer `i`'s
  `<-cs.ch` meet, `v` goes straight to the consumer. -/
  | sync (i : Nat)
deriving DecidableEq, Repr

/-- One action.  `none` means the action is not possible in `s`.

Channel operations follow the Go specification: on a buffered channel a send
proceeds iff the buffer is not full and a receive proceeds iff the buffer is
not empty; on an unbuffered channel (capacity 0) a communication proceeds iff
a sender and a receiver are both ready.  (When a receiver already waits on an
empty buffered channel the runtime passes the value of the next send straight
to it; here that is `send` followed by `recv`.)  A consumer is one goroutine,
so it is inside at most one call of `Int63` at a time. -/
def step {σ : Type} (R : Runtime σ) : Action → State σ → Option (State σ)
  | .assign n, s => some { s with BufferSize := n }
  | .gen, s =>
    match s.held with
    | none =>
      some { s with held := some (R.randInt63 s.src).1,
                    src := (R.randInt63 s.src).2,
                    generated := s.generated + 1 }
    | some _ => none
  | .send, s =>
    match s.held with
    | some v =>
      if s.ch.buf.length < s.ch.cap then
        some { s with ch := { s.ch with buf := s.ch.buf ++ [v] },
                      held := none,
                      enqueued := s.enqueued + 1 }
      else none
    | none => none
  | .call i, s =>
    if i ∈ s.pending then none
    else some { s with pending := s.pending ++ [i] }
  | .recv i, s =>
    if i ∈ s.pending then
      match s.ch.buf with
      | x :: rest =>
        some { s with ch := { s.ch with buf := rest },
                      pending := s.pending.erase i,
                      results := s.results ++ [(i, x)] }
      | [] => none
    else none
  | .sync i, s =>
    if s.ch.cap = 0 ∧ i ∈ s.pending then
      match s.held with
      | some v =>
        some { s with held := none,
                      enqueued := s.enqueued + 1,
                      pending := s.pending.erase i,
                      results := s.results ++ [(i, v)] }
      | none => none
    else none

/-- A schedule: the actions are performed in order; `none` as soon as one of
them is not possible. -/
def run {σ : Type} (R : Runtime σ) : List Action → State σ → Option (State σ)
  | [], s => some s
  | a :: as, s =>
    match step R a s with
    | some s' => run R as s'
    | none => none

/-- The values delivered to consumers, in the order the receives happened. -/
def delivered {σ : Type} (s : State σ) : List Int :=
  s.results.map Prod.snd

/-- The filler is blocked: it is at its send with a value in hand and the send
cannot complete, neither into the buffer nor by meeting a waiting consumer. -/
def fillerBlocked {σ : Type} (R : Runtime σ) (s : State σ) : Bool :=
  s.held.isSome && (step R .send s).isNone &&
    s.pending.all (fun i => (step R (.sync i) s).isNone)

/-- Consumer `i` is blocked: it is inside `Int63` and its receive cannot
complete, neither from the buffer nor by meeting the filler's send. -/
def consumerBlocked {σ : Type} (R : Runtime σ) (s : State σ) (i : Nat) : Bool :=
  decide (i ∈ s.pending) && (step R (.recv i) s).isNone &&
    (step R (.sync i) s).isNone

/-- A stand-in for `math/rand` used to evaluate the definitions on concrete
schedules: a linear congruential generator truncated to 63 bits, on a machine
where the range check of `make(chan int64, n)` passes up to
`n = 2 ^ 45 - 12` (the bound of a 64-bit runtime with a 48-bit heap) and the
allocator can supply channels of up to `2 ^ 24` values. -/
def sampleRuntime : Runtime Nat where
  randNewSource := fun seed => seed.toNat
  randInt63 := fun g =>
    (((6364136223846793005 * g + 1442695040888963407) % 2 ^ 63 : Nat),
     (6364136223846793005 * g + 1442695040888963407) % 2 ^ 64)
  maxChanLen := 35184372088820
  allocates := fun n => decide (n ≤ 2 ^ 24)

/-- The consumer an action belongs to, if it is a consumer's action. -/
def Action.consumer : Action → Option Nat
  | .call i => some i
  | .recv i => some i
  | .sync i => some i
  | _ => none

/-- In the schedule `as` consumer `c` is the only one that ever calls `Int63`
(the filler and assignments to `BufferSize` are unrestricted). -/
def onlyConsumer (c : Nat) (as : List Action) : Bool :=
  as.all (fun a => a.consumer = none ∨ a.consumer = some c)

/-- Go `sort.Sort(int64Slice(xs))` of the tests: `xs` in ascending order. -/
def sortInt64s (xs : List Int) : List Int :=
  xs.insertionSort (fun a b => a ≤ b)

/-- A schedule that lets the call of `Int63` consumer `i` is inside of return:
if a value is buffered the consumer takes it; otherwise the filler runs until
its next send completes (drawing a value first unless it already holds one),
which on an unbuffered channel is the hand-over to the consumer and on a
buffered one is followed by the receive. -/
def completion {σ : Type} (s : State σ) (i : Nat) : List Action :=
  match s.ch.buf with
  | _ :: _ => [.recv i]
  | [] =>
    (match s.held with
      | none => [.gen]
      | some _ => []) ++
    (if s.ch.cap = 0 then [.sync i] else [.send, .recv i])

/-- One call of `Int63` by consumer `i` on a source of capacity `cap` whose
buffer is empty and whose filler is at the top of its loop: the consumer
calls, the filler draws a value and sends it, the consumer receives it. -/
def drawRound (cap : Nat) (i : Nat) : List Action :=
  [.call i, .gen] ++ (if cap = 0 then [.sync i] else [.send, .recv i])

/-- The schedule of consumer `i` calling `Int63` `k` times in a row on a fresh
source of capacity `cap`. -/
def drawSchedule (cap : Nat) (i : Nat) : Nat → List Action
  | 0 => []
  | k + 1 => drawSchedule cap i k ++ drawRound cap i

/-- The schedule in which the filler alone runs `n` times round its loop. -/
def fillSchedule : Nat → List Action
  | 0 => []
  | n + 1 => fillSchedule n ++ [.gen, .send]

/-- The fresh source `NewSource(42)` returns on `sampleRuntime` when
`BufferSize` is 2. -/
def sampleSource : State Nat :=
  { BufferSize := 2, ch := { cap := 2, buf := [] }, src := 42, held := none,
    pending := [], results := [], generated := 0, enqueued := 0 }

/-- The fresh source `NewSource(42)` returns on `sampleRuntime` when
`BufferSize` is 0: its channel is unbuffered. -/
def unbufferedSource : State Nat :=
  { BufferSize := 0, ch := { cap := 0, buf := [] }, src := 42, held := none,
    pending := [], results := [], generated := 0, enqueued := 0 }

/-- The state of `unbufferedSource` after consumer 0 has called `Int63` and the
filler has drawn its first value: both are at the channel. -/
def unbufferedMeeting : State Nat :=
  { BufferSize := 0, ch := { cap := 0, buf := [] },
    src := (6364136223846793005 * 42 + 1442695040888963407) % 2 ^ 64,
    held := some 1258627373665771185,
    pending := [0], results := [], generated := 1, enqueued := 0 }

/-- The fresh source `NewSource(42)` returns on `sampleRuntime` when
`BufferSize` has its initial value. -/
def defaultSource : State Nat :=
  { BufferSize := 500, ch := { cap := 500, buf := [] }, src := 42, held := none,
    pending := [], results := [], generated := 0, enqueued := 0 }

/-- The state of `sampleSource` once the filler has filled the queue and drawn a
third value, and consumer 0 has just called `Int63`. -/
def sampleFull : State Nat :=
  { BufferSize := 2,
    ch := { cap := 2, buf := [1258627373665771185, 4159066171780167020] },
    src := 7615522811268512075, held := some 7615522811268512075,
    pending := [0], results := [], generated := 3, enqueued := 2 }

/-- The state of `sampleSource` after one value has been delivered to consumer 0,
a second one is queued and a third is in the filler's hand. -/
def sampleMid : State Nat :=
  { BufferSize := 2, ch := { cap := 2, buf := [4159066171780167020] },
    src := 7615522811268512075, held := some 7615522811268512075,
    pending := [], results := [(0, 1258627373665771185)],
    generated := 3, enqueued := 2 }

/-- The state of `sampleSource` after consumers 1 and 0 have called `Int63` in
that order and consumer 0 got the first value, consumer 1 the second. -/
def sampleTwo : State Nat :=
  { BufferSize := 2, ch := { cap := 2, buf := [] },
    src := 7615522811268512075, held := some 7615522811268512075,
    pending := [],
    results := [(0, 1258627373665771185), (1, 4159066171780167020)],
    generated := 3, enqueued := 2 }

/-- The facts that hold of a source built from `seed` throughout its life:
the filler's generator has made exactly `generated` steps, the values delivered
followed by the values buffered are the first `enqueued` outputs of the
generator, a value in the filler's hand is the next output, and the buffer
never exceeds its capacity. -/
structure Inv {σ : Type} (R : Runtime σ) (seed : Int) (s : State σ) : Prop where
  src_eq : s.src = advance R (R.randNewSource seed) s.generated
  stream : delivered s ++ s.ch.buf = reference R seed s.enqueued
  held_some : ∀ v, s.held = some v →
    s.generated = s.enqueued + 1 ∧
      v = (R.randInt63 (advance R (R.randNewSource seed) s.enqueued)).1
  held_none : s.held = none → s.generated = s.enqueued
  bound : s.ch.buf.length ≤ s.ch.cap

/-! ## The generator's sequence -/

theorem advance_succ {σ : Type} (R : Runtime σ) (g : σ) (k : Nat) :
    advance R g (k + 1) = (R.randInt63 (advance R g k)).2 := by
  induction k generalizing g with
  | zero => rfl
  | succ k ih =>
    show advance R (R.randInt63 g).2 (k + 1) = _
    rw [ih]
    rfl

theorem drawFrom_succ {σ : Type} (R : Runtime σ) (g : σ) (k : Nat) :
    drawFrom R g (k + 1) = drawFrom R g k ++ [(R.randInt63 (advance R g k)).1] := by
  induction k generalizing g with
  | zero => rfl
  | succ k ih =>
    show _ :: drawFrom R (R.randInt63 g).2 (k + 1) = _
    rw [ih]
    rfl

theorem length_drawFrom {σ : Type} (R : Runtime σ) (g : σ) (k : Nat) :
    (drawFrom R g k).length = k := by
  induction k generalizing g with
  | zero => rfl
  | succ k ih => simp [drawFrom, ih]

theorem length_reference {σ : Type} (R : Runtime σ) (seed : Int) (k : Nat) :
    (reference R seed k).length = k :=
  length_drawFrom R _ k

theorem reference_succ {σ : Type} (R : Runtime σ) (seed : Int) (k : Nat) :
    reference R seed (k + 1) =
      reference R seed k ++ [(R.randInt63 (advance R (R.randNewSource seed) k)).1] :=
  drawFrom_succ R _ k

/-! ## Construction -/

theorem makechan_ok_iff (maxChanLen : Nat) (allocates : Nat → Bool) (size : Int)
    (ch : Chan) :
    makechan maxChanLen allocates size = .ok ch ↔
      (0 ≤ size ∧ size ≤ maxChanLen ∧ allocates size.toNat = true) ∧
        ch = { cap := size.toNat, buf := [] } := by
  unfold makechan
  split
  · rename_i h
    constructor
    · intro h'
      cases h'
    · rintro ⟨⟨h0, h1, -⟩, -⟩
      omega
  · rename_i h
    split
    · rename_i ha
      constructor
      · intro h'
        injection h' with h'
        exact ⟨⟨by omega, by omega, ha⟩, h'.symm⟩
      · rintro ⟨-, rfl⟩
        rfl
    · rename_i ha
      constructor
      · intro h'
        cases h'
      · rintro ⟨⟨-, -, ha'⟩, -⟩
        exact absurd ha' ha

theorem NewSource_ok_iff {σ : Type} (R : Runtime σ) (bufferSize seed : Int)
    (s : State σ) :
    NewSource R bufferSize seed = .ok s ↔
      (0 ≤ bufferSize ∧ bufferSize ≤ R.maxChanLen ∧
          R.allocates bufferSize.toNat = true) ∧
        s = { BufferSize := bufferSize, ch := { cap := bufferSize.toNat, buf := [] },
              src := R.randNewSource seed, held := none, pending := [],
              results := [], generated := 0, enqueued := 0 } := by
  unfold NewSource
  cases hm : makechan R.maxChanLen R.allocates bufferSize with
  | error e =>
    constructor
    · intro h
      cases h
    · rintro ⟨hb, -⟩
      have := (makechan_ok_iff R.maxChanLen R.allocates bufferSize _).2 ⟨hb, rfl⟩
      rw [hm] at this
      cases this
  | ok ch =>
    obtain ⟨hb, rfl⟩ := (makechan_ok_iff _ _ _ _).1 hm
    constructor
    · intro h
      injection h with h
      exact ⟨hb, h.symm⟩
    · rintro ⟨-, rfl⟩
      rfl

theorem NewSource_inv {σ : Type} (R : Runtime σ) (bufferSize seed : Int)
    (s : State σ) (h : NewSource R bufferSize seed = .ok s) : Inv R seed s := by
  obtain ⟨-, rfl⟩ := (NewSource_ok_iff R bufferSize seed s).1 h
  exact
    { src_eq := rfl
      stream := rfl
      held_some := by intro v hv; cases hv
      held_none := fun _ => rfl
      bound := Nat.zero_le _ }

/-! ## One step -/

theorem step_cap {σ : Type} (R : Runtime σ) (a : Action) (s s' : State σ)
    (h : step R a s = some s') : s'.ch.cap = s.ch.cap := by
  cases a <;> simp only [step] at h
  · cases h; rfl
  · split at h
    · cases h; rfl
    · cases h
  · split at h
    · split at h
      · cases h; rfl
      · cases h
    · cases h
  · split at h
    · cases h
    · cases h; rfl
  · split at h
    · split at h
      · cases h; rfl
      · cases h
    · cases h
  · split at h
    · split at h
      · cases h; rfl
      · cases h
    · cases h

theorem step_inv {σ : Type} (R : Runtime σ) (seed : Int) (a : Action)
    (s s' : State σ) (hs : Inv R seed s) (h : step R a s = some s') :
    Inv R seed s' := by
  rcases a with n | _ | _ | i | i | i <;> simp only [step] at h
  · cases h
    exact ⟨hs.src_eq, hs.stream, hs.held_some, hs.held_none, hs.bound⟩
  · split at h
    · rename_i hn
      cases h
      have hg := hs.held_none hn
      refine ⟨?_, hs.stream, ?_, ?_, hs.bound⟩
      · show _ = advance R _ (s.generated + 1)
        rw [advance_succ, ← hs.src_eq]
      · intro v hv
        injection hv with hv
        refine ⟨by show s.generated + 1 = s.enqueued + 1; rw [hg], ?_⟩
        rw [← hv, ← hg, ← hs.src_eq]
      · intro hv
        cases hv
    · cases h
  · split at h
    · rename_i v hv
      split at h
      · rename_i hlt
        cases h
        obtain ⟨hg, hval⟩ := hs.held_some v hv
        refine ⟨hs.src_eq, ?_, ?_, ?_, ?_⟩
        · show delivered s ++ (s.ch.buf ++ [v]) = reference R seed (s.enqueued + 1)
          rw [reference_succ, ← hs.stream, ← hval, List.append_assoc]
        · intro w hw
          cases hw
        · intro _
          exact hg
        · show (s.ch.buf ++ [v]).length ≤ s.ch.cap
          rw [List.length_append]
          exact hlt
      · cases h
    · cases h
  · split at h
    · cases h
    · cases h
      exact ⟨hs.src_eq, hs.stream, hs.held_some, hs.held_none, hs.bound⟩
  · split at h
    · split at h
      · rename_i hi x rest hb
        cases h
        refine ⟨hs.src_eq, ?_, hs.held_some, hs.held_none, ?_⟩
        · have := hs.stream
          rw [hb] at this
          show List.map Prod.snd (s.results ++ [(i, x)]) ++ rest = _
          rw [← this]
          simp [delivered]
        · have := hs.bound
          rw [hb] at this
          show rest.length ≤ s.ch.cap
          exact Nat.le_of_succ_le this
      · cases h
    · cases h
  · split at h
    · rename_i hc
      split at h
      · rename_i v hv
        cases h
        obtain ⟨hg, hval⟩ := hs.held_some v hv
        have hb : s.ch.buf = [] := by
          have := hs.bound
          rw [hc.1] at this
          exact List.length_eq_zero.mp (Nat.le_zero.mp this)
        refine ⟨hs.src_eq, ?_, ?_, ?_, hs.bound⟩
        · have := hs.stream
          rw [hb] at this
          show List.map Prod.snd (s.results ++ [(i, v)]) ++ s.ch.buf =
            reference R seed (s.enqueued + 1)
          rw [reference_succ, ← this, ← hval, hb]
          simp [delivered]
        · intro w hw
          cases hw
        · intro _
          exact hg
      · cases h
    · cases h

/-! ## Schedules -/

theorem run_append {σ : Type} (R : Runtime σ) (as bs : List Action) (s : State σ) :
    run R (as ++ bs) s = (run R as s).bind (run R bs) := by
  induction as generalizing s with
  | nil => rfl
  | cons a as ih =>
    show (match step R a s with | some s' => run R (as ++ bs) s' | none => none) = _
    cases hstep : step R a s with
    | none => simp [run, hstep]
    | some s' => simp [run, hstep, ih]

theorem run_cap {σ : Type} (R : Runtime σ) (as : List Action) (s s' : State σ)
    (h : run R as s = some s') : s'.ch.cap = s.ch.cap := by
  induction as generalizing s with
  | nil =>
    cases h
    rfl
  | cons a as ih =>
    simp only [run] at h
    cases hstep : step R a s with
    | none => simp [hstep] at h
    | some t =>
      rw [hstep] at h
      rw [ih t h, step_cap R a s t hstep]

theorem run_inv {σ : Type} (R : Runtime σ) (seed : Int) (as : List Action)
    (s s' : State σ) (hs : Inv R seed s) (h : run R as s = some s') :
    Inv R seed s' := by
  induction as generalizing s with
  | nil =>
    cases h
    exact hs
  | cons a as ih =>
    simp only [run] at h
    cases hstep : step R a s with
    | none => simp [hstep] at h
    | some t =>
      rw [hstep] at h
      exact ih t (step_inv R seed a s t hs hstep) h

theorem Inv.count {σ : Type} {R : Runtime σ} {seed : Int} {s : State σ}
    (hs : Inv R seed s) : s.enqueued = s.results.length + s.ch.buf.length := by
  have := congrArg List.length hs.stream
  rw [length_reference, List.length_append] at this
  simpa [delivered] using this.symm

theorem drawFrom_add {σ : Type} (R : Runtime σ) (g : σ) (k m : Nat) :
    drawFrom R g (k + m) = drawFrom R g k ++ drawFrom R (advance R g k) m := by
  induction k generalizing g with
  | zero => simp [drawFrom, advance]
  | succ k ih =>
    rw [Nat.succ_add]
    show _ :: drawFrom R (R.randInt63 g).2 (k + m) = _
    rw [ih]
    rfl

theorem reference_take {σ : Type} (R : Runtime σ) (seed : Int) (k n : Nat)
    (h : k ≤ n) : (reference R seed n).take k = reference R seed k := by
  obtain ⟨m, rfl⟩ := Nat.exists_eq_add_of_le h
  unfold reference
  rw [drawFrom_add, List.take_left']
  exact length_drawFrom R _ k

theorem Inv.delivered_eq {σ : Type} {R : Runtime σ} {seed : Int} {s : State σ}
    (hs : Inv R seed s) : delivered s = reference R seed s.results.length := by
  have h := congrArg (List.take s.results.length) hs.stream
  rw [List.take_left' (by simp [delivered]),
    reference_take R seed _ _ (by rw [hs.count]; exact Nat.le_add_right _ _)] at h
  exact h

theorem Inv.buf_eq {σ : Type} {R : Runtime σ} {seed : Int} {s : State σ}
    (hs : Inv R seed s) :
    s.ch.buf = (reference R seed s.enqueued).drop s.results.length := by
  have h := congrArg (List.drop s.results.length) hs.stream
  rw [List.drop_left' (by simp [delivered])] at h
  exact h

/-- Actions of the filler, assignments and actions of consumer `c` only ever
record results of consumer `c`. -/
theorem step_results_consumer {σ : Type} (R : Runtime σ) (c : Nat) (a : Action)
    (s s' : State σ) (ha : a.consumer = none ∨ a.consumer = some c)
    (hs : ∀ r ∈ s.results, r.1 = c) (h : step R a s = some s') :
    ∀ r ∈ s'.results, r.1 = c := by
  rcases a with n | _ | _ | i | i | i <;> simp only [step] at h
  · cases h; exact hs
  · split at h
    · cases h; exact hs
    · cases h
  · split at h
    · split at h
      · cases h; exact hs
      · cases h
    · cases h
  · split at h
    · cases h
    · cases h; exact hs
  · have hic : i = c := by simpa [Action.consumer] using ha
    split at h
    · split at h
      · cases h
        intro r hr
        rcases List.mem_append.1 hr with hr | hr
        · exact hs r hr
        · rw [List.mem_singleton.1 hr]; exact hic
      · cases h
    · cases h
  · have hic : i = c := by simpa [Action.consumer] using ha
    split at h
    · split at h
      · cases h
        intro r hr
        rcases List.mem_append.1 hr with hr | hr
        · exact hs r hr
        · rw [List.mem_singleton.1 hr]; exact hic
      · cases h
    · cases h

theorem run_results_consumer {σ : Type} (R : Runtime σ) (c : Nat)
    (as : List Action) (s s' : State σ) (ha : onlyConsumer c as = true)
    (hs : ∀ r ∈ s.results, r.1 = c) (h : run R as s = some s') :
    ∀ r ∈ s'.results, r.1 = c := by
  induction as generalizing s with
  | nil =>
    cases h
    exact hs
  | cons a as ih =>
    simp only [run] at h
    have ha' : (a.consumer = none ∨ a.consumer = some c) ∧ onlyConsumer c as = true := by
      simpa [onlyConsumer] using ha
    cases hstep : step R a s with
    | none => simp [hstep] at h
    | some t =>
      rw [hstep] at h
      exact ih t ha'.2 (step_results_consumer R c a s t ha'.1 hs hstep) h

theorem results_eq_of_consumer (c : Nat) (rs : List (Nat × Int))
    (h : ∀ r ∈ rs, r.1 = c) : rs = (rs.map Prod.snd).map (Prod.mk c) := by
  induction rs with
  | nil => rfl
  | cons r rs ih =>
    have hr : r.1 = c := h r (List.mem_cons_self _ _)
    have := ih (fun r' hr' => h r' (List.mem_cons_of_mem _ hr'))
    rw [List.map_cons, List.map_cons, ← this, ← hr]

/-- One round of `drawRound` on a source at rest (empty buffer, filler at the
top of its loop, no call in progress) delivers the next value of the generator
to the caller and leaves the source at rest again. -/
theorem run_drawRound {σ : Type} (R : Runtime σ) (i : Nat)
    (s : State σ) (hh : s.held = none) (hb : s.ch.buf = [])
    (hp : s.pending = []) :
    ∃ s', run R (drawRound s.ch.cap i) s = some s' ∧ s'.held = none ∧
      s'.ch.buf = [] ∧ s'.pending = [] ∧ s'.ch.cap = s.ch.cap ∧
      s'.results = s.results ++ [(i, (R.randInt63 s.src).1)] := by
  by_cases hc : s.ch.cap = 0
  · simp [drawRound, run, step, hh, hb, hp, hc]
  · have hpos : 0 < s.ch.cap := Nat.pos_of_ne_zero hc
    simp [drawRound, run, step, hh, hb, hp, hc, hpos]

theorem onlyConsumer_drawSchedule (cap i k : Nat) :
    onlyConsumer i (drawSchedule cap i k) = true := by
  induction k with
  | zero => rfl
  | succ k ih =>
    have hr : onlyConsumer i (drawRound cap i) = true := by
      by_cases hc : cap = 0 <;> simp [onlyConsumer, drawRound, hc, Action.consumer]
    unfold onlyConsumer at ih hr ⊢
    rw [drawSchedule, List.all_append, ih, hr]
    rfl

/-- The schedule `drawSchedule` is possible on a fresh source and makes `k`
calls of `Int63` return the first `k` values of the generator to consumer `i`. -/
theorem run_drawSchedule {σ : Type} (R : Runtime σ) (seed : Int) (i : Nat)
    (s0 : State σ) (hs : Inv R seed s0) (hh : s0.held = none)
    (hb : s0.ch.buf = []) (hp : s0.pending = []) (hr : s0.results = []) (k : Nat) :
    ∃ s, run R (drawSchedule s0.ch.cap i k) s0 = some s ∧ s.held = none ∧
      s.ch.buf = [] ∧ s.pending = [] ∧
      s.results = (reference R seed k).map (Prod.mk i) := by
  induction k with
  | zero => exact ⟨s0, rfl, hh, hb, hp, by simp [hr, reference, drawFrom]⟩
  | succ k ih =>
    obtain ⟨s, hrun, hh', hb', hp', hr'⟩ := ih
    have hinv : Inv R seed s := run_inv R seed _ s0 s hs hrun
    have hcap : s.ch.cap = s0.ch.cap := run_cap R _ s0 s hrun
    obtain ⟨s', hrun', hh'', hb'', hp'', -, hr''⟩ := run_drawRound R i s hh' hb' hp'
    refine ⟨s', ?_, hh'', hb'', hp'', ?_⟩
    · rw [drawSchedule, run_append, hrun, ← hcap]
      exact hrun'
    · have hgen : s.generated = k := by
        rw [hinv.held_none hh', hinv.count, hb', hr']
        simp [length_reference]
      rw [hr'', hr', hinv.src_eq, hgen, reference_succ, List.map_append]
      rfl

/-! ## Order and multiset of the delivered values -/

/-- C1: with a single consumer, whatever the schedule, the values `Int63` has
returned so far are, in order, the first values of `rand.NewSource(seed)`; and
for every `k` the `k` sequential calls do return (the schedule `drawSchedule`
is possible and ends with exactly the first `k` values delivered in order). -/
theorem single_consumer_same_order {σ : Type} (R : Runtime σ)
    (bufferSize seed : Int) (s0 : State σ)
    (h : NewSource R bufferSize seed = .ok s0) :
    (∀ as s, onlyConsumer 0 as = true → run R as s0 = some s →
      s.results = (reference R seed s.results.length).map (Prod.mk 0)) ∧
    (∀ k, ∃ s, onlyConsumer 0 (drawSchedule s0.ch.cap 0 k) = true ∧
      run R (drawSchedule s0.ch.cap 0 k) s0 = some s ∧
      s.results = (reference R seed k).map (Prod.mk 0)) := by
  have hinv := NewSource_inv R bufferSize seed s0 h
  obtain ⟨-, hs0⟩ := (NewSource_ok_iff R bufferSize seed s0).1 h
  constructor
  · intro as s hone hrun
    have hs := run_inv R seed as s0 s hinv hrun
    have hids := run_results_consumer R 0 as s0 s hone (by rw [hs0]; simp) hrun
    have := results_eq_of_consumer 0 s.results hids
    rw [← hs.delivered_eq]
    exact this
  · intro k
    obtain ⟨s, hrun, -, -, -, hres⟩ :=
      run_drawSchedule R seed 0 s0 hinv (by rw [hs0]) (by rw [hs0]) (by rw [hs0])
        (by rw [hs0]) k
    exact ⟨s, onlyConsumer_drawSchedule _ 0 k, hrun, hres⟩

/-- C2: whatever the schedule and however many consumers take part, the values
delivered, put in any order (for instance by consumer) and then sorted, are the
sorted first `k` values of `rand.NewSource(seed)`, `k` the number delivered. -/
theorem multiple_goroutines_same_multiset {σ : Type} (R : Runtime σ)
    (bufferSize seed : Int) (s0 : State σ)
    (h : NewSource R bufferSize seed = .ok s0) (as : List Action) (s : State σ)
    (hrun : run R as s0 = some s) (got : List Int)
    (hgot : got.Perm (delivered s)) :
    sortInt64s got = sortInt64s (reference R seed got.length) := by
  have hs := run_inv R seed as s0 s (NewSource_inv R bufferSize seed s0 h) hrun
  have hlen : got.length = s.results.length := by
    rw [hgot.length_eq]
    simp [delivered]
  have hperm : got.Perm (reference R seed got.length) := by
    rw [hlen, ← hs.delivered_eq]
    exact hgot
  unfold sortInt64s
  apply List.eq_of_perm_of_sorted (r := fun a b : Int => a ≤ b)
  · exact (List.perm_insertionSort _ _).trans (hperm.trans (List.perm_insertionSort _ _).symm)
  · exact List.sorted_insertionSort _ _
  · exact List.sorted_insertionSort _ _

/-- C3: in every reachable state the values delivered (in the order of the
receives) followed by the queue contents are the first `enqueued` values of the
generator; so the delivered values are an initial segment of the generator's
sequence in generation order, the queue holds exactly the enqueued values not
yet delivered, and every enqueued value is accounted for exactly once: the
number enqueued is the number of completed `Int63` calls plus the queue length. -/
theorem fifo_no_loss_no_duplication {σ : Type} (R : Runtime σ)
    (bufferSize seed : Int) (s0 : State σ)
    (h : NewSource R bufferSize seed = .ok s0) (as : List Action) (s : State σ)
    (hrun : run R as s0 = some s) :
    delivered s ++ s.ch.buf = reference R seed s.enqueued ∧
    delivered s = (reference R seed s.enqueued).take s.results.length ∧
    s.ch.buf = (reference R seed s.enqueued).drop s.results.length ∧
    s.enqueued = s.results.length + s.ch.buf.length := by
  have hs := run_inv R seed as s0 s (NewSource_inv R bufferSize seed s0 h) hrun
  refine ⟨hs.stream, ?_, hs.buf_eq, hs.count⟩
  rw [reference_take R seed _ _ (by rw [hs.count]; exact Nat.le_add_right _ _)]
  exact hs.delivered_eq

/-! ## Blocking -/

theorem fillerBlocked_iff {σ : Type} (R : Runtime σ) (s : State σ) :
    fillerBlocked R s = true ↔
      s.held.isSome = true ∧ s.ch.cap ≤ s.ch.buf.length ∧
        (s.ch.cap = 0 → s.pending = []) := by
  unfold fillerBlocked
  cases hh : s.held with
  | none => simp
  | some v =>
    by_cases hlt : s.ch.buf.length < s.ch.cap
    · simp [step, hh, hlt]
    · by_cases hc : s.ch.cap = 0
      · simp [step, hh, hlt, hc, List.eq_nil_iff_forall_not_mem]
      · simp [step, hh, hlt, hc]
        omega

theorem consumerBlocked_iff {σ : Type} (R : Runtime σ) (s : State σ) (i : Nat) :
    consumerBlocked R s i = true ↔
      i ∈ s.pending ∧ s.ch.buf = [] ∧ ¬ (s.ch.cap = 0 ∧ s.held.isSome = true) := by
  unfold consumerBlocked
  by_cases hi : i ∈ s.pending
  · cases hb : s.ch.buf with
    | nil =>
      cases hh : s.held with
      | none => simp [step, hi, hb, hh]
      | some v =>
        by_cases hc : s.ch.cap = 0 <;> simp [step, hi, hb, hh, hc]
    | cons x rest => simp [step, hi, hb]
  · simp [hi]

theorem run_completion {σ : Type} (R : Runtime σ) (s : State σ) (i : Nat)
    (hi : i ∈ s.pending) :
    ∃ s' v, run R (completion s i) s = some s' ∧
      s'.results = s.results ++ [(i, v)] ∧ s'.pending = s.pending.erase i := by
  cases hb : s.ch.buf with
  | cons x rest => simp [completion, run, step, hb, hi]
  | nil =>
    by_cases hc : s.ch.cap = 0
    · cases hh : s.held with
      | none => simp [completion, run, step, hb, hi, hc, hh]
      | some v => simp [completion, run, step, hb, hi, hc, hh]
    · have hpos : 0 < s.ch.cap := Nat.pos_of_ne_zero hc
      cases hh : s.held with
      | none => simp [completion, run, step, hb, hi, hc, hh, hpos]
      | some v => simp [completion, run, step, hb, hi, hc, hh, hpos]

theorem run_fillSchedule {σ : Type} (R : Runtime σ) (s0 : State σ)
    (hh : s0.held = none) (hb : s0.ch.buf = []) (hp : s0.pending = [])
    (hr : s0.results = []) (n : Nat) (hn : n ≤ s0.ch.cap) :
    ∃ s, run R (fillSchedule n) s0 = some s ∧ s.held = none ∧
      s.ch.buf.length = n ∧ s.pending = [] ∧ s.results = [] := by
  induction n with
  | zero => exact ⟨s0, rfl, hh, by rw [hb]; rfl, hp, hr⟩
  | succ n ih =>
    obtain ⟨s, hrun, hh', hb', hp', hr'⟩ := ih (Nat.le_of_succ_le hn)
    have hcap : s.ch.cap = s0.ch.cap := run_cap R _ s0 s hrun
    have hlt : n < s.ch.cap := by omega
    rw [fillSchedule, run_append, hrun]
    simp [run, step, hh', hlt, hb', hp', hr']

/-! ## The claims on `Seed`, capacity and blocking -/

/-- C4: `Seed` panics whatever the state of the source and whatever the seed,
it never returns normally, and it leaves the source (queue, generator and all
the rest) as it was. -/
theorem Seed_always_panics {σ : Type} (s : State σ) (seed : Int) :
    (source.Seed s seed).1 = .error "changing the seed is not supported" ∧
    (∀ u, (source.Seed s seed).1 ≠ .ok u) ∧
    (source.Seed s seed).2 = s := by
  refine ⟨rfl, ?_, rfl⟩
  intro u hu
  cases hu

/-- C5, as the code has it: in every reachable state the queue holds at most
`cap` values and the filler has enqueued at most `cap` values more than have
been delivered; on a buffered channel (`cap ≥ 1`) the filler at its send is
blocked once `cap` values are buffered, and after one value has been drawn from
the full queue its send is possible again; on an unbuffered channel
(`cap = 0`) the filler at its send is blocked exactly when no consumer is
waiting. -/
theorem backpressure_boundary {σ : Type} (R : Runtime σ)
    (bufferSize seed : Int) (s0 : State σ)
    (h : NewSource R bufferSize seed = .ok s0) (as : List Action) (s : State σ)
    (hrun : run R as s0 = some s) :
    s.ch.buf.length ≤ s.ch.cap ∧
    s.enqueued ≤ s.results.length + s.ch.cap ∧
    (1 ≤ s.ch.cap → s.held.isSome = true → s.ch.buf.length = s.ch.cap →
      fillerBlocked R s = true) ∧
    (1 ≤ s.ch.cap → s.held.isSome = true → s.ch.buf.length = s.ch.cap →
      ∀ i, i ∈ s.pending → ∃ s', step R (.recv i) s = some s' ∧
        (step R .send s').isSome = true ∧ fillerBlocked R s' = false) ∧
    (s.ch.cap = 0 → s.held.isSome = true →
      (fillerBlocked R s = true ↔ s.pending = [])) := by
  have hs := run_inv R seed as s0 s (NewSource_inv R bufferSize seed s0 h) hrun
  refine ⟨hs.bound, ?_, ?_, ?_, ?_⟩
  · rw [hs.count]
    exact Nat.add_le_add_left hs.bound _
  · intro hc hh hfull
    rw [fillerBlocked_iff]
    exact ⟨hh, by omega, by omega⟩
  · intro hc hh hfull i hi
    cases hb : s.ch.buf with
    | nil =>
      rw [hb] at hfull
      simp at hfull
      omega
    | cons x rest =>
      obtain ⟨v, hv⟩ := Option.isSome_iff_exists.1 hh
      have hlt : rest.length < s.ch.cap := by
        rw [← hfull, hb]
        simp
      have hstep : step R (.recv i) s =
          some { s with ch := { s.ch with buf := rest },
                        pending := s.pending.erase i,
                        results := s.results ++ [(i, x)] } := by
        simp only [step, hi, hb, if_true]
      refine ⟨_, hstep, ?_, ?_⟩
      · simp [step, hv, hlt]
      · cases hfb : fillerBlocked R _ with
        | false => rfl
        | true =>
          have := ((fillerBlocked_iff R _).1 hfb).2.1
          simp at this
          omega
  · intro hc hh
    rw [fillerBlocked_iff]
    have := hs.bound
    constructor
    · intro hfb
      exact hfb.2.2 hc
    · intro hp
      exact ⟨hh, by omega, fun _ => hp⟩

/-- C6, as the code has it: for every seed and every `BufferSize`, the call
`NewSource(seed)` ends in exactly one of three ways.  When `BufferSize` is
negative or above the largest channel length the runtime accepts, `make`
panics and no source is returned.  When it is within that range and the
allocator cannot supply the channel, the program dies with the fatal error
`out of memory`, which is no panic, and no source is returned.  Otherwise
`NewSource` returns a source; and `Int63` on that source never fails: in every
reachable state a consumer that is not inside a call can make one, and a call
in progress returns a value once the filler has run (the schedule `completion`
is possible and ends with the value recorded for that consumer). -/
theorem NewSource_defined {σ : Type} (R : Runtime σ) (bufferSize seed : Int) :
    (bufferSize < 0 ∨ (R.maxChanLen : Int) < bufferSize →
      NewSource R bufferSize seed =
        .error (.panic "makechan: size out of range")) ∧
    (0 ≤ bufferSize → bufferSize ≤ R.maxChanLen →
      R.allocates bufferSize.toNat = false →
      NewSource R bufferSize seed = .error (.fatal "runtime: out of memory")) ∧
    (0 ≤ bufferSize → bufferSize ≤ R.maxChanLen →
      R.allocates bufferSize.toNat = true →
      ∃ s0, NewSource R bufferSize seed = .ok s0 ∧
        ∀ as s, run R as s0 = some s → ∀ i,
          (i ∉ s.pending → (step R (.call i) s).isSome = true) ∧
          (i ∈ s.pending → ∃ s' v, run R (completion s i) s = some s' ∧
            s'.results = s.results ++ [(i, v)] ∧
            s'.pending = s.pending.erase i)) := by
  refine ⟨?_, ?_, ?_⟩
  · intro hb
    simp only [NewSource, makechan, if_pos hb]
  · intro h0 h1 ha
    have hb : ¬ (bufferSize < 0 ∨ (R.maxChanLen : Int) < bufferSize) := by omega
    simp [NewSource, makechan, hb, ha]
  · intro h0 h1 ha
    refine ⟨_, (NewSource_ok_iff R bufferSize seed _).2 ⟨⟨h0, h1, ha⟩, rfl⟩, ?_⟩
    intro as s _ i
    refine ⟨?_, run_completion R s i⟩
    intro hi
    simp [step, hi]

/-- C7: the capacity of the channel of a source is the value `BufferSize` had
when `NewSource` ran (500 when the variable still has its initial value), and
no schedule changes it: not the calls of `Int63`, not the filler, and not an
assignment to `BufferSize`, which changes the variable only. -/
theorem capacity_fixed {σ : Type} (R : Runtime σ) (bufferSize seed : Int)
    (s0 : State σ) (h : NewSource R bufferSize seed = .ok s0) :
    (s0.ch.cap : Int) = bufferSize ∧
    (bufferSize = BufferSize → s0.ch.cap = 500) ∧
    (∀ as s, run R as s0 = some s → s.ch.cap = s0.ch.cap) ∧
    (∀ as s n, run R as s0 = some s →
      ∃ s', run R (as ++ [.assign n]) s0 = some s' ∧ s'.BufferSize = n ∧
        s'.ch.cap = s0.ch.cap) := by
  obtain ⟨⟨h0, -⟩, hs0⟩ := (NewSource_ok_iff R bufferSize seed s0).1 h
  have hcap : (s0.ch.cap : Int) = bufferSize := by
    rw [hs0]
    exact Int.toNat_of_nonneg h0
  refine ⟨hcap, ?_, fun as s hrun => run_cap R as s0 s hrun, ?_⟩
  · intro hb
    rw [hb, BufferSize] at hcap
    exact_mod_cast hcap
  · intro as s n hrun
    refine ⟨{ s with BufferSize := n }, ?_, rfl, run_cap R as s0 s hrun⟩
    rw [run_append, hrun]
    rfl

/-- C8, as the code has it: in every reachable state of a source with a
buffered channel (`cap ≥ 1`) a consumer inside `Int63` is blocked iff the queue
is empty and the filler at its send is blocked iff the queue is full; on an
unbuffered channel (`cap = 0`) a consumer inside `Int63` is blocked iff the
filler is not at its send, and the filler at its send is blocked iff no
consumer is inside `Int63`; and for every capacity no reachable state has both
the filler and a consumer blocked. -/
theorem blocking_conditions {σ : Type} (R : Runtime σ) (bufferSize seed : Int)
    (s0 : State σ) (h : NewSource R bufferSize seed = .ok s0) (as : List Action)
    (s : State σ) (hrun : run R as s0 = some s) :
    (1 ≤ s.ch.cap → ∀ i, i ∈ s.pending →
      (consumerBlocked R s i = true ↔ s.ch.buf = [])) ∧
    (1 ≤ s.ch.cap → s.held.isSome = true →
      (fillerBlocked R s = true ↔ s.ch.buf.length = s.ch.cap)) ∧
    (s.ch.cap = 0 → ∀ i, i ∈ s.pending →
      (consumerBlocked R s i = true ↔ s.held = none)) ∧
    (s.ch.cap = 0 → s.held.isSome = true →
      (fillerBlocked R s = true ↔ s.pending = [])) ∧
    (∀ i, ¬ (fillerBlocked R s = true ∧ consumerBlocked R s i = true)) := by
  have hs := run_inv R seed as s0 s (NewSource_inv R bufferSize seed s0 h) hrun
  have hbound := hs.bound
  refine ⟨?_, ?_, ?_, ?_, ?_⟩
  · intro hc i hi
    rw [consumerBlocked_iff]
    constructor
    · intro hb
      exact hb.2.1
    · intro hb
      exact ⟨hi, hb, fun hcap => by omega⟩
  · intro hc hh
    rw [fillerBlocked_iff]
    constructor
    · intro hb
      omega
    · intro hfull
      exact ⟨hh, by omega, by omega⟩
  · intro hc i hi
    have hb : s.ch.buf = [] := List.length_eq_zero.mp (by omega)
    rw [consumerBlocked_iff]
    constructor
    · intro hbl
      cases hh : s.held with
      | none => rfl
      | some v => exact absurd ⟨hc, by rw [hh]; rfl⟩ hbl.2.2
    · intro hh
      exact ⟨hi, hb, fun hcap => by rw [hh] at hcap; simp at hcap⟩
  · intro hc hh
    rw [fillerBlocked_iff]
    constructor
    · intro hfb
      exact hfb.2.2 hc
    · intro hp
      exact ⟨hh, by omega, fun _ => hp⟩
  · rintro i ⟨hf, hcb⟩
    rw [fillerBlocked_iff] at hf
    rw [consumerBlocked_iff] at hcb
    obtain ⟨hh, hfull, hp⟩ := hf
    obtain ⟨hi, hb, hno⟩ := hcb
    rw [hb] at hfull
    have hc : s.ch.cap = 0 := by simpa using hfull
    exact hno ⟨hc, hh⟩

/-- C9: a call of `Int63` on a non-empty queue returns the head of the queue
and changes nothing else than removing that head and recording the result: the
rest of the queue, its order, the capacity, the generator and the value in the
filler's hand are as before; and no action but the filler's `src.Int63()`
changes the generator. -/
theorem Int63_takes_head {σ : Type} (R : Runtime σ) (s : State σ) (i : Nat)
    (x : Int) (rest : List Int) (hi : i ∉ s.pending) (hb : s.ch.buf = x :: rest) :
    run R [.call i, .recv i] s =
      some { s with ch := { s.ch with buf := rest },
                    results := s.results ++ [(i, x)] } ∧
    (∀ a t t', step R a t = some t' → a ≠ .gen →
      t'.src = t.src ∧ t'.generated = t.generated) := by
  constructor
  · have he : (s.pending ++ [i]).erase i = s.pending := by
      rw [List.erase_append_right _ hi]
      simp
    simp [run, step, hi, hb, he]
  · intro a t t' hstep ha
    rcases a with n | _ | _ | j | j | j <;> simp only [step] at hstep
    · cases hstep; exact ⟨rfl, rfl⟩
    · exact absurd rfl ha
    · split at hstep
      · split at hstep
        · cases hstep; exact ⟨rfl, rfl⟩
        · cases hstep
      · cases hstep
    · split at hstep
      · cases hstep
      · cases hstep; exact ⟨rfl, rfl⟩
    · split at hstep
      · split at hstep
        · cases hstep; exact ⟨rfl, rfl⟩
        · cases hstep
      · cases hstep
    · split at hstep
      · split at hstep
        · cases hstep; exact ⟨rfl, rfl⟩
        · cases hstep
      · cases hstep

/-- C10: in every reachable state the number of values the filler has drawn
from the generator exceeds the number delivered by at most `cap + 1`; it is
exactly `cap + 1` whenever the filler is at its send with the queue full; and
such a state is reached: after the filler has run alone (`fillSchedule` then
one more `src.Int63()`) it is blocked on the full queue with `cap + 1` values
drawn and none delivered. -/
theorem generated_ahead_bound {σ : Type} (R : Runtime σ) (bufferSize seed : Int)
    (s0 : State σ) (h : NewSource R bufferSize seed = .ok s0) :
    (∀ as s, run R as s0 = some s →
      s.generated ≤ s.results.length + s.ch.cap + 1 ∧
      (s.held.isSome = true → s.ch.buf.length = s.ch.cap →
        s.generated = s.results.length + s.ch.cap + 1)) ∧
    (∃ s, run R (fillSchedule s0.ch.cap ++ [.gen]) s0 = some s ∧
      fillerBlocked R s = true ∧ s.ch.buf.length = s.ch.cap ∧
      s.results = [] ∧ s.generated = s.ch.cap + 1) := by
  have hinv := NewSource_inv R bufferSize seed s0 h
  obtain ⟨-, hs0⟩ := (NewSource_ok_iff R bufferSize seed s0).1 h
  have key : ∀ as s, run R as s0 = some s →
      s.generated ≤ s.results.length + s.ch.cap + 1 ∧
      (s.held.isSome = true → s.ch.buf.length = s.ch.cap →
        s.generated = s.results.length + s.ch.cap + 1) := by
    intro as s hrun
    have hs := run_inv R seed as s0 s hinv hrun
    have hcount := hs.count
    have hbound := hs.bound
    cases hh : s.held with
    | none =>
      have := hs.held_none hh
      exact ⟨by omega, by intro hsome; simp at hsome⟩
    | some v =>
      have := (hs.held_some v hh).1
      exact ⟨by omega, by intro _ hfull; omega⟩
  refine ⟨key, ?_⟩
  obtain ⟨s, hrun, hh, hb, hp, hr⟩ :=
    run_fillSchedule R s0 (by rw [hs0]) (by rw [hs0]) (by rw [hs0]) (by rw [hs0])
      s0.ch.cap (Nat.le_refl _)
  have hcap : s.ch.cap = s0.ch.cap := run_cap R _ s0 s hrun
  have hstep : step R .gen s =
      some { s with held := some (R.randInt63 s.src).1,
                    src := (R.randInt63 s.src).2,
                    generated := s.generated + 1 } := by
    simp only [step, hh]
  have hrun' : run R (fillSchedule s0.ch.cap ++ [.gen]) s0 =
      some { s with held := some (R.randInt63 s.src).1,
                    src := (R.randInt63 s.src).2,
                    generated := s.generated + 1 } := by
    rw [run_append, hrun]
    simp only [Option.bind, run, hstep]
  refine ⟨_, hrun', ?_, ?_, hr, ?_⟩
  · rw [fillerBlocked_iff]
    exact ⟨rfl, by show s.ch.cap ≤ s.ch.buf.length; omega, fun _ => hp⟩
  · show s.ch.buf.length = s.ch.cap
    omega
  · have := (key _ _ hrun').2 rfl (by show s.ch.buf.length = s.ch.cap; omega)
    simpa [hr] using this

/-! ## The claims at concrete schedules -/

/-- Instance of `single_consumer_same_order`: on the sample source of capacity
2, a schedule in which only consumer 0 draws, and five sequential draws. -/
theorem single_consumer_same_order_witness :
    NewSource sampleRuntime 2 42 = .ok sampleSource ∧
    onlyConsumer 0 [.gen, .send, .gen, .call 0, .recv 0, .send, .gen] = true ∧
    run sampleRuntime [.gen, .send, .gen, .call 0, .recv 0, .send, .gen]
      sampleSource = some sampleMid ∧
    sampleMid.results = (reference sampleRuntime 42 1).map (Prod.mk 0) ∧
    ∃ s, run sampleRuntime (drawSchedule 2 0 5) sampleSource = some s ∧
      s.results = (reference sampleRuntime 42 5).map (Prod.mk 0) :=
  ⟨rfl, rfl, rfl,
    (single_consumer_same_order sampleRuntime 2 42 sampleSource rfl).1
      [.gen, .send, .gen, .call 0, .recv 0, .send, .gen] sampleMid rfl rfl,
    ((single_consumer_same_order sampleRuntime 2 42 sampleSource rfl).2 5).imp
      fun _ hs => hs.2⟩

/-- Instance of `multiple_goroutines_same_multiset`: two consumers, the values
collected in the opposite order of their delivery. -/
theorem multiple_goroutines_same_multiset_witness :
    NewSource sampleRuntime 2 42 = .ok sampleSource ∧
    run sampleRuntime
      [.call 1, .call 0, .gen, .send, .gen, .send, .recv 0, .recv 1, .gen]
      sampleSource = some sampleTwo ∧
    [4159066171780167020, 1258627373665771185].Perm (delivered sampleTwo) ∧
    sortInt64s [4159066171780167020, 1258627373665771185] =
      sortInt64s (reference sampleRuntime 42 2) :=
  ⟨rfl, rfl, List.Perm.swap _ _ _,
    multiple_goroutines_same_multiset sampleRuntime 2 42 sampleSource rfl
      [.call 1, .call 0, .gen, .send, .gen, .send, .recv 0, .recv 1, .gen]
      sampleTwo rfl [4159066171780167020, 1258627373665771185]
      (List.Perm.swap _ _ _)⟩

/-- Instance of `fifo_no_loss_no_duplication` at `sampleMid`: one value
delivered, one queued, two enqueued. -/
theorem fifo_no_loss_no_duplication_witness :
    NewSource sampleRuntime 2 42 = .ok sampleSource ∧
    run sampleRuntime [.gen, .send, .gen, .call 0, .recv 0, .send, .gen]
      sampleSource = some sampleMid ∧
    delivered sampleMid ++ sampleMid.ch.buf = reference sampleRuntime 42 2 :=
  ⟨rfl, rfl,
    (fifo_no_loss_no_duplication sampleRuntime 2 42 sampleSource rfl
      [.gen, .send, .gen, .call 0, .recv 0, .send, .gen] sampleMid rfl).1⟩

/-- C5 fails for capacity 0: on the unbuffered source, with consumer 0 waiting
in `Int63` and the filler at its send, the queue holds `cap = 0` values and yet
the filler is not blocked, its send completes by handing the value over. -/
theorem backpressure_unbuffered_counterexample :
    NewSource sampleRuntime 0 42 = .ok unbufferedSource ∧
    run sampleRuntime [.call 0, .gen] unbufferedSource = some unbufferedMeeting ∧
    unbufferedMeeting.held.isSome = true ∧
    unbufferedMeeting.ch.buf.length = unbufferedMeeting.ch.cap ∧
    fillerBlocked sampleRuntime unbufferedMeeting = false ∧
    (step sampleRuntime (.sync 0) unbufferedMeeting).isSome = true :=
  ⟨rfl, rfl, rfl, rfl, rfl, rfl⟩

/-- Instance of `backpressure_boundary` at `sampleFull`: the queue of capacity 2
is full, the filler is blocked, and after consumer 0 has drawn the send is
possible. -/
theorem backpressure_boundary_witness :
    NewSource sampleRuntime 2 42 = .ok sampleSource ∧
    run sampleRuntime [.gen, .send, .gen, .send, .gen, .call 0] sampleSource =
      some sampleFull ∧
    sampleFull.ch.buf.length ≤ sampleFull.ch.cap ∧
    fillerBlocked sampleRuntime sampleFull = true ∧
    ∃ s', step sampleRuntime (.recv 0) sampleFull = some s' ∧
      (step sampleRuntime .send s').isSome = true ∧
      fillerBlocked sampleRuntime s' = false :=
  ⟨rfl, rfl,
    (backpressure_boundary sampleRuntime 2 42 sampleSource rfl
      [.gen, .send, .gen, .send, .gen, .call 0] sampleFull rfl).1,
    (backpressure_boundary sampleRuntime 2 42 sampleSource rfl
      [.gen, .send, .gen, .send, .gen, .call 0] sampleFull rfl).2.2.1
      (by decide) rfl rfl,
    (backpressure_boundary sampleRuntime 2 42 sampleSource rfl
      [.gen, .send, .gen, .send, .gen, .call 0] sampleFull rfl).2.2.2.1
      (by decide) rfl rfl 0 (by decide)⟩

/-- C6 fails for a negative `BufferSize`: with `BufferSize = -1` the `make` in
`NewSource(42)` panics and no source is returned. -/
theorem NewSource_negative_counterexample :
    NewSource sampleRuntime (-1) 42 =
      .error (.panic "makechan: size out of range") :=
  rfl

/-- Instances of `NewSource_defined` on `sampleRuntime`, seed 42: the panic at
`BufferSize = -1` and at `2 ^ 45`, the fatal error at `2 ^ 32` and at
`35184372088818`, which pass the range check and cannot be allocated, and the
source at `BufferSize = 2`. -/
theorem NewSource_defined_witness :
    NewSource sampleRuntime (-1) 42 =
      .error (.panic "makechan: size out of range") ∧
    NewSource sampleRuntime 35184372088832 42 =
      .error (.panic "makechan: size out of range") ∧
    NewSource sampleRuntime 4294967296 42 =
      .error (.fatal "runtime: out of memory") ∧
    NewSource sampleRuntime 35184372088818 42 =
      .error (.fatal "runtime: out of memory") ∧
    ∃ s0, NewSource sampleRuntime 2 42 = .ok s0 :=
  ⟨(NewSource_defined sampleRuntime (-1) 42).1 (by decide),
    (NewSource_defined sampleRuntime 35184372088832 42).1 (by decide),
    (NewSource_defined sampleRuntime 4294967296 42).2.1 (by decide) (by decide) rfl,
    (NewSource_defined sampleRuntime 35184372088818 42).2.1 (by decide)
      (by decide) rfl,
    ((NewSource_defined sampleRuntime 2 42).2.2 (by decide) (by decide) rfl).imp
      fun _ hs => hs.1⟩

/-- Instance of `capacity_fixed`: the default `BufferSize`. -/
theorem capacity_fixed_witness :
    NewSource sampleRuntime BufferSize 42 = .ok defaultSource ∧
    defaultSource.ch.cap = 500 :=
  ⟨rfl, (capacity_fixed sampleRuntime BufferSize 42 defaultSource rfl).2.1 rfl⟩

/-- C8 fails for capacity 0: on the unbuffered source, with consumer 0 inside
`Int63` and the filler at its send, the queue is empty and full (`cap = 0`),
yet neither the consumer nor the filler is blocked. -/
theorem blocking_unbuffered_counterexample :
    NewSource sampleRuntime 0 42 = .ok unbufferedSource ∧
    run sampleRuntime [.call 0, .gen] unbufferedSource = some unbufferedMeeting ∧
    0 ∈ unbufferedMeeting.pending ∧
    ¬ (consumerBlocked sampleRuntime unbufferedMeeting 0 = true ↔
        unbufferedMeeting.ch.buf = []) ∧
    ¬ (fillerBlocked sampleRuntime unbufferedMeeting = true ↔
        unbufferedMeeting.ch.buf.length = unbufferedMeeting.ch.cap) :=
  ⟨rfl, rfl, by decide, by decide, by decide⟩

/-- Instance of `blocking_conditions` at `sampleFull`: the filler is blocked on
the full queue of capacity 2 and consumer 0 is not blocked. -/
theorem blocking_conditions_witness :
    NewSource sampleRuntime 2 42 = .ok sampleSource ∧
    run sampleRuntime [.gen, .send, .gen, .send, .gen, .call 0] sampleSource =
      some sampleFull ∧
    (consumerBlocked sampleRuntime sampleFull 0 = true ↔ sampleFull.ch.buf = []) ∧
    (fillerBlocked sampleRuntime sampleFull = true ↔
      sampleFull.ch.buf.length = sampleFull.ch.cap) :=
  ⟨rfl, rfl,
    (blocking_conditions sampleRuntime 2 42 sampleSource rfl
      [.gen, .send, .gen, .send, .gen, .call 0] sampleFull rfl).1
      (by decide) 0 (by decide),
    (blocking_conditions sampleRuntime 2 42 sampleSource rfl
      [.gen, .send, .gen, .send, .gen, .call 0] sampleFull rfl).2.1
      (by decide) rfl⟩

/-- Instance of `Int63_takes_head`: consumer 1 calls `Int63` on `sampleFull`. -/
theorem Int63_takes_head_witness :
    1 ∉ sampleFull.pending ∧
    sampleFull.ch.buf = 1258627373665771185 :: [4159066171780167020] ∧
    run sampleRuntime [.call 1, .recv 1] sampleFull =
      some { sampleFull with
        ch := { sampleFull.ch with buf := [4159066171780167020] },
        results := sampleFull.results ++ [(1, 1258627373665771185)] } :=
  ⟨by decide, rfl,
    (Int63_takes_head sampleRuntime sampleFull 1 1258627373665771185
      [4159066171780167020] (by decide) rfl).1⟩

/-- Instance of `generated_ahead_bound`: on the sample source of capacity 2 the
filler running alone ends blocked with three values drawn, none delivered. -/
theorem generated_ahead_bound_witness :
    NewSource sampleRuntime 2 42 = .ok sampleSource ∧
    ∃ s, run sampleRuntime (fillSchedule 2 ++ [.gen]) sampleSource = some s ∧
      fillerBlocked sampleRuntime s = true ∧ s.generated = s.ch.cap + 1 :=
  ⟨rfl,
    (generated_ahead_bound sampleRuntime 2 42 sampleSource rfl).2.imp
      fun _ hs => ⟨hs.1, hs.2.1, hs.2.2.2.2⟩⟩

end concurrentrand
